import Mathlib

/- Verification of the Priority Planner task engine (`do.py`): the task
   entity, the lazy-deletion priority index, the heuristic estimator, the
   dependency-gated completion operations, the global scheduling algorithm
   and the snapshot export/import contract. Timestamps are modelled as
   integer seconds (plain `Int`); the injected date-parsing collaborator
   (`dateutil.parser.parse`) is modelled on a date-text domain where text
   that parses is represented by its timestamp and unparseable text by the
   raw string. The `heapq` binary heap is modelled as a list kept sorted
   ascending, which realises the same abstract priority-queue behaviour
   (push, read minimum, pop minimum) observed by the code. -/

set_option maxHeartbeats 1000000

namespace Planner

/-- Date text as consumed by the date-parsing collaborator: text that parses
to a timestamp is represented by that timestamp (`good`), unparseable text by
the raw string (`bad`). -/
inductive DateText where
  | good (ts : Int)
  | bad (s : String)
deriving DecidableEq, Repr

/-- The date-parsing collaborator `dateutil.parser.parse`; raising on
unparseable input is modelled by `none`. -/
def parseDate : DateText → Option Int
  | .good ts => some ts
  | .bad _ => none

/-- Textual form of a timestamp (`datetime.isoformat`). -/
def isofmt (ts : Int) : DateText := .good ts

/-- Characters of a string, lowercased (`str.lower`). -/
def lowerChars (s : String) : List Char := s.data.map Char.toLower

/-- Does `p` begin `s`? Helper for the substring test. -/
def charsStart : List Char → List Char → Bool
  | [], _ => true
  | _ :: _, [] => false
  | p :: ps, c :: cs => p == c && charsStart ps cs

/-- Python's `pat in s` substring test, on character lists. -/
def containsSub (pat : List Char) : List Char → Bool
  | [] => pat.isEmpty
  | c :: cs => charsStart pat (c :: cs) || containsSub pat cs

/-- Python `len(s.split())`: number of maximal whitespace-free words. -/
def wordCount (s : String) : Nat :=
  ((s.split Char.isWhitespace).filter (fun w => w ≠ "")).length

/-- The task record (dataclass `Task` in `do.py`). The derived `sort_index`
field is kept out of the state and recomputed by `sortIndex` exactly where
the code reruns `__post_init__`. -/
structure Task where
  priority : Int := 5
  deadline : Option Int := none
  id : String := ""
  title : String := ""
  description : String := ""
  created_at : Int := 0
  completed : Bool := false
  progress : Int := 0
  dependencies : List String := []
  tags : List String := []
  estimated_minutes : Option Int := none
  auto_assigned : Bool := false
  reminded : Bool := false
deriving DecidableEq, Repr

/-- `Task.__post_init__`: the ordering key `(priority, deadline timestamp)`,
with a missing deadline standing for `float("inf")` (modelled by `none`,
which sorts after every `some`). -/
def sortIndex (t : Task) : Int × Option Int := (t.priority, t.deadline)

/-- A heap entry `(task.sort_index, task.id)`. -/
abbrev Entry := (Int × Option Int) × String

/-- Comparison of the deadline part of a key: `none` behaves as plus
infinity. -/
def tsLT : Option Int → Option Int → Bool
  | some a, some b => a < b
  | some _, none => true
  | none, _ => false

/-- Python tuple comparison on heap entries: priority, then deadline (absent
last), then id. -/
def entryLE (a b : Entry) : Bool :=
  a.1.1 < b.1.1 ||
    (a.1.1 == b.1.1 && (tsLT a.1.2 b.1.2 ||
      (a.1.2 == b.1.2 && !(decide (b.2 < a.2)))))

/-- `heapq.heappush` on the sorted-list model of the heap. -/
def heapInsert (e : Entry) : List Entry → List Entry
  | [] => [e]
  | f :: fs => if entryLE f e then f :: heapInsert e fs else e :: f :: fs

/-- `TaskManager._push_heap`: recompute the ordering key and push. -/
def pushHeap (t : Task) (h : List Entry) : List Entry :=
  heapInsert (sortIndex t, t.id) h

/-- `TaskManager._rebuild_heap`: discard the heap and push every
non-completed task. -/
def rebuildHeap (tasks : List Task) : List Entry :=
  tasks.foldl (fun h t => if t.completed then h else pushHeap t h) []

/-- `self.tasks.get(tid)`: the store is an insertion-ordered association
list, as a Python dict is. -/
def getTask (tasks : List Task) (tid : String) : Option Task :=
  tasks.find? (fun t => t.id == tid)

/-- Dict assignment `self.tasks[t.id] = t`: replace in place when the key is
present, otherwise append. -/
def dictInsert (t : Task) : List Task → List Task
  | [] => [t]
  | u :: us => if u.id == t.id then t :: us else u :: dictInsert t us

/-- In-place mutation of the task object stored under `tid`. -/
def dictModify (tid : String) (f : Task → Task) : List Task → List Task
  | [] => []
  | u :: us => if u.id == tid then f u :: us else u :: dictModify tid f us

/-- `del self.tasks[tid]`, a no-op when the id is absent. -/
def dictErase (tid : String) (tasks : List Task) : List Task :=
  tasks.filter (fun t => !(t.id == tid))

/-- The manager state: the authoritative store plus the lazy-deletion heap. -/
structure TaskManager where
  tasks : List Task := []
  heap : List Entry := []
deriving DecidableEq, Repr

/-- Errors raised by manager operations: `KeyError` (not found), the
unmet-dependency `RuntimeError`, a date-parse failure, and a malformed
snapshot payload (`json.loads` failure). -/
inductive Err where
  | notFound
  | depError (unmet : List String)
  | parseError (txt : DateText)
  | formatError
deriving DecidableEq, Repr

/-- Keyword scan of `TaskManager.auto_assign_priority_and_deadline`: the
tiered if/elif chain over the lowercased title+description, starting from
the default priority 5. -/
def keywordStage (text : List Char) : Int × List String :=
  let priority : Int := 5
  if containsSub "urgent".data text || containsSub "asap".data text ||
      containsSub "immediately".data text then
    ((1 : Int), ["urgent"])
  else if containsSub "high".data text || containsSub "important".data text then
    (min priority 2, ["high"])
  else if containsSub "low".data text || containsSub "whenever".data text then
    (max priority 7, ["low"])
  else (priority, ([] : List String))

/-- Deadline-proximity branch of the heuristic: tighten (never loosen) the
priority according to the remaining time until the supplied deadline. -/
def deadlineStage (now : Int) (stage1 : Int × List String)
    (d : Int) : Int × List String :=
  if d - now ≤ 12 * 3600 then (min stage1.1 1, stage1.2 ++ ["due_12h"])
  else if d - now ≤ 24 * 3600 then (min stage1.1 2, stage1.2 ++ ["due_24h"])
  else if d - now ≤ 3 * 86400 then (min stage1.1 3, stage1.2 ++ ["due_3d"])
  else stage1

/-- Effort estimate of the heuristic:
`max(15, min(8 * (wordCount // 20 + 1), 80))`. -/
def estCalc (description : String) : Int :=
  let words : Int := (wordCount description : Int)
  max 15 (min (8 * (words / 20 + 1)) (8 * 10))

/-- `TaskManager.auto_assign_priority_and_deadline`: keyword scan plus
deadline-proximity tightening plus the effort estimate. Returns
`(priority, deadline, tags, estimated_minutes)`. -/
def auto_assign (now : Int) (title description : String)
    (user_deadline : Option Int) :
    Int × Option Int × List String × Int :=
  let text := lowerChars (title ++ " " ++ description)
  let stage1 := keywordStage text
  let stage2 :=
    match user_deadline with
    | none => stage1
    | some d => deadlineStage now stage1 d
  (stage2.1, user_deadline, stage2.2, estCalc description)

/-- Result record of the natural-language stub `TaskManager.ai_parse_task`. -/
structure ParsedTask where
  title : String
  description : String
  deadline : Option DateText
  priority_hint : Option String
  dependencies : List String
  estimated_minutes : Option Int
deriving DecidableEq, Repr

/-- `TaskManager.ai_parse_task`: truncated title, whole text as description,
"tomorrow" checked before "today" for the inferred deadline, tier-A keyword
scan for the priority hint. -/
def ai_parse_task (now : Int) (natural_text : String) : ParsedTask :=
  let text := lowerChars natural_text
  { title := if natural_text.length ≤ 60 then natural_text
             else natural_text.take 57 ++ "...",
    description := natural_text,
    deadline :=
      if containsSub "tomorrow".data text then some (isofmt (now + 86400))
      else if containsSub "today".data text then some (isofmt now)
      else none,
    priority_hint :=
      if containsSub "urgent".data text || containsSub "asap".data text ||
          containsSub "immediately".data text then some "urgent" else none,
    dependencies := [],
    estimated_minutes := none }

/-- Deadline-urgency term of `TaskManager.ai_schedule`: `-1000` when
`delta <= 0`, else the remaining seconds converted to hours; `0` with no
deadline. -/
def deadlineScore (now : Int) : Option Int → ℚ
  | none => 0
  | some d => if d - now ≤ 0 then -1000 else ((d - now : Int) : ℚ) / 3600

/-- Deadline-urgency of a task in `ai_schedule`. -/
def codeUrgency (now : Int) (t : Task) : ℚ := deadlineScore now t.deadline

/-- The combined score of `TaskManager.ai_schedule`:
`priority + deadline_score / 24`. -/
def codeScore (now : Int) (t : Task) : ℚ :=
  (t.priority : ℚ) + codeUrgency now t / 24

/-- Stable insertion used by the sorting model: the inserted element goes
after every element of strictly smaller score and before equal scores, so a
later-scanned element never jumps ahead of an equal earlier one. -/
def insertByScore (score : Task → ℚ) (x : Task) : List Task → List Task
  | [] => [x]
  | y :: ys =>
    if score y < score x then y :: insertByScore score x ys else x :: y :: ys

/-- Stable sort ascending by score (Python `list.sort(key=...)`). -/
def sortByScore (score : Task → ℚ) : List Task → List Task
  | [] => []
  | x :: xs => insertByScore score x (sortByScore score xs)

/-- Score every non-completed task, stable-sort ascending by score, return
the ids. -/
def scheduleBy (score : Task → ℚ) (tasks : List Task) : List String :=
  (sortByScore score (tasks.filter (fun t => !t.completed))).map (fun t => t.id)

/-- `TaskManager.ai_schedule`. -/
def ai_schedule (now : Int) (s : TaskManager) : List String :=
  scheduleBy (codeScore now) s.tasks

/-- Modelled from the spec wording of claim C7: urgency is `-1000` only for
a deadline strictly in the past (`deadline < now`), else the hours
remaining when a deadline exists, else `0`. -/
def specUrgencyStrictAux (now : Int) : Option Int → ℚ
  | none => 0
  | some d => if d < now then -1000 else ((d - now : Int) : ℚ) / 3600

/-- Urgency per the spec wording of claim C7 applied to a task. -/
def specUrgencyStrict (now : Int) (t : Task) : ℚ :=
  specUrgencyStrictAux now t.deadline

/-- Score per the spec wording of claim C7 (strictly-past reading). -/
def specScoreStrict (now : Int) (t : Task) : ℚ :=
  (t.priority : ℚ) + specUrgencyStrict now t / 24

/-- Schedule per the spec wording of claim C7 (strictly-past reading). -/
def specScheduleStrict (now : Int) (s : TaskManager) : List String :=
  scheduleBy (specScoreStrict now) s.tasks

/-- Amended spec urgency: `-1000` when the deadline is at or before `now`
(`delta <= 0`), matching the code's boundary. -/
def specUrgencyAmendedAux (now : Int) : Option Int → ℚ
  | none => 0
  | some d => if d ≤ now then -1000 else ((d - now : Int) : ℚ) / 3600

/-- Amended urgency applied to a task. -/
def specUrgencyAmended (now : Int) (t : Task) : ℚ :=
  specUrgencyAmendedAux now t.deadline

/-- Score per the amended spec reading of claim C7. -/
def specScoreAmended (now : Int) (t : Task) : ℚ :=
  (t.priority : ℚ) + specUrgencyAmended now t / 24

/-- Schedule per the amended spec reading of claim C7. -/
def specScheduleAmended (now : Int) (s : TaskManager) : List String :=
  scheduleBy (specScoreAmended now) s.tasks

/-- Final insertion steps of `TaskManager.add_task`: store the new task,
push it onto the heap, then append the supplied dependency ids (skipping
duplicates) onto the stored task object. -/
def insertNewTask (t : Task) (deps : Option (List String)) (s : TaskManager) :
    TaskManager :=
  let tasks1 := dictInsert t s.tasks
  let heap1 := pushHeap t s.heap
  let tasks2 :=
    match deps with
    | none => tasks1
    | some ds =>
      dictModify t.id (fun u =>
        { u with dependencies :=
            (ds.foldl (fun l d => if l.contains d then l else l ++ [d])
              u.dependencies) }) tasks1
  { tasks := tasks2, heap := heap1 }

/-- `TaskManager.add_task`. `now` models `datetime.utcnow()`, `newId` the
uuid collaborator. The natural-language stub may override title,
description, deadline text and priority; the deadline text is then parsed
(raising on failure, before any mutation); with no explicit priority the
heuristic estimator assigns priority, tags and effort. -/
def add_task (now : Int) (newId : String) (title description : String)
    (deadline_iso : Option DateText) (priority : Option Int)
    (deps : Option (List String)) (from_nlp : Bool)
    (tags : Option (List String)) (minutes : Option Int)
    (s : TaskManager) : TaskManager × Option Err :=
  match (if from_nlp then
          let parsed := ai_parse_task now
            (if description == "" then title else title ++ " " ++ description)
          (parsed.title, parsed.description,
            (match parsed.deadline, deadline_iso with
             | some d, none => some d
             | _, _ => deadline_iso),
            (match parsed.priority_hint, priority with
             | some h, none => if h == "urgent" then some (1 : Int) else priority
             | _, _ => priority))
         else (title, description, deadline_iso, priority)) with
  | (title1, description1, deadline_iso1, priority1) =>
    match (match deadline_iso1 with
           | none => Except.ok (none : Option Int)
           | some d =>
             match parseDate d with
             | some ts => Except.ok (some ts)
             | none => Except.error (Err.parseError d)) with
    | .error e => (s, some e)
    | .ok deadline0 =>
      match (match priority1 with
             | none =>
               match auto_assign now title1 description1 deadline0 with
               | (p, deadline_auto, auto_tags, est) =>
                 (p,
                  (match deadline0, deadline_auto with
                   | none, some x => some x
                   | _, _ => deadline0),
                  auto_tags, some est, true)
             | some p =>
               (p, deadline0, tags.getD [], minutes, false)) with
      | (priority2, deadline2, tags2, est2, autoA) =>
        let t : Task :=
          { priority := priority2, deadline := deadline2, id := newId,
            title := title1, description := description1, created_at := now,
            tags := tags2, estimated_minutes := est2, auto_assigned := autoA }
        (insertNewTask t deps s, none)

/-- One keyword argument of `TaskManager.update_task`. Every constructor is
a field the dataclass has (`hasattr` true, applied verbatim); `deadline` is
re-parsed; an unrecognized key is silently ignored. -/
inductive FieldUpdate where
  | deadline (v : Option DateText)
  | title (v : String)
  | description (v : String)
  | priority (v : Int)
  | progress (v : Int)
  | completed (v : Bool)
  | tags (v : List String)
  | dependencies (v : List String)
  | estimated_minutes (v : Option Int)
  | reminded (v : Bool)
  | unknown (k : String)
deriving DecidableEq, Repr

/-- Apply one keyword argument to the task object, as the loop body of
`update_task` does; a deadline that fails to parse raises. -/
def applyField (t : Task) : FieldUpdate → Except Err Task
  | .deadline none => .ok { t with deadline := none }
  | .deadline (some d) =>
    match parseDate d with
    | some ts => .ok { t with deadline := some ts }
    | none => .error (.parseError d)
  | .title v => .ok { t with title := v }
  | .description v => .ok { t with description := v }
  | .priority v => .ok { t with priority := v }
  | .progress v => .ok { t with progress := v }
  | .completed v => .ok { t with completed := v }
  | .tags v => .ok { t with tags := v }
  | .dependencies v => .ok { t with dependencies := v }
  | .estimated_minutes v => .ok { t with estimated_minutes := v }
  | .reminded v => .ok { t with reminded := v }
  | .unknown _ => .ok t

/-- Sequential application of the keyword arguments; on the first failing
one, the fields already applied stay applied (the exception propagates out
of the loop mid-way). -/
def applyFields (t : Task) : List FieldUpdate → Task × Option Err
  | [] => (t, none)
  | u :: us =>
    match applyField t u with
    | .ok t1 => applyFields t1 us
    | .error e => (t, some e)

/-- `TaskManager.update_task`: `KeyError` when absent; otherwise apply the
keyword arguments one by one to the stored object; only on normal completion
recompute the key and rebuild the heap. -/
def update_task (tid : String) (updates : List FieldUpdate) (s : TaskManager) :
    TaskManager × Option Err :=
  match getTask s.tasks tid with
  | none => (s, some .notFound)
  | some t0 =>
    match applyFields t0 updates with
    | (t1, none) =>
      let tasks1 := dictModify tid (fun _ => t1) s.tasks
      ({ tasks := tasks1, heap := rebuildHeap tasks1 }, none)
    | (t1, some e) =>
      ({ tasks := dictModify tid (fun _ => t1) s.tasks, heap := s.heap }, some e)

/-- `TaskManager.delete_task`: hard delete (no error when absent), then
rebuild. -/
def delete_task (tid : String) (s : TaskManager) : TaskManager × Option Err :=
  let tasks1 := dictErase tid s.tasks
  ({ tasks := tasks1, heap := rebuildHeap tasks1 }, none)

/-- `TaskManager.set_progress`: `KeyError` when absent; clamp to [0,100];
a clamped value of 100 sets `completed`; rebuild. -/
def set_progress (tid : String) (progress : Int) (s : TaskManager) :
    TaskManager × Option Err :=
  match getTask s.tasks tid with
  | none => (s, some .notFound)
  | some _ =>
    let tasks1 := dictModify tid (fun t =>
      let p := max 0 (min 100 progress)
      { t with progress := p,
               completed := if p == 100 then true else t.completed }) s.tasks
    ({ tasks := tasks1, heap := rebuildHeap tasks1 }, none)

/-- The unmet dependencies of `t`: every dependency id that does not resolve
to an existing task whose `completed` is true. -/
def unmetDeps (s : TaskManager) (t : Task) : List String :=
  t.dependencies.filter
    (fun d => !((getTask s.tasks d).any (fun td => td.completed)))

/-- `TaskManager.complete_task`: `KeyError` when absent; raise with the
unmet list (no mutation) when any dependency is unmet; otherwise set
`completed` and `progress = 100` and rebuild. -/
def complete_task (tid : String) (s : TaskManager) : TaskManager × Option Err :=
  match getTask s.tasks tid with
  | none => (s, some .notFound)
  | some t =>
    match unmetDeps s t with
    | [] =>
      let tasks1 := dictModify tid
        (fun u => { u with completed := true, progress := 100 }) s.tasks
      ({ tasks := tasks1, heap := rebuildHeap tasks1 }, none)
    | d :: ds => (s, some (.depError (d :: ds)))

/-- `TaskManager.peek_next`: drop stale minima (missing or completed task),
return the first valid one keeping its entry; `none` when exhausted. -/
def peek_next (tasks : List Task) : List Entry → Option Task × List Entry
  | [] => (none, [])
  | e :: rest =>
    match getTask tasks e.2 with
    | none => peek_next tasks rest
    | some t =>
      if t.completed then peek_next tasks rest else (some t, e :: rest)

/-- `TaskManager.pop_next`: same scan, but the returned entry is removed. -/
def pop_next (tasks : List Task) : List Entry → Option Task × List Entry
  | [] => (none, [])
  | e :: rest =>
    match getTask tasks e.2 with
    | none => pop_next tasks rest
    | some t =>
      if t.completed then pop_next tasks rest else (some t, rest)

/-- A serialized task record (`Task.to_dict` output / `Task.from_dict`
input); every field optional because `from_dict` reads with `dict.get`. -/
structure TaskDict where
  id : Option String := none
  title : Option String := none
  description : Option String := none
  priority : Option Int := none
  deadline : Option DateText := none
  created_at : Option DateText := none
  completed : Option Bool := none
  progress : Option Int := none
  dependencies : Option (List String) := none
  tags : Option (List String) := none
  estimated_minutes : Option Int := none
  auto_assigned : Option Bool := none
  reminded : Option Bool := none
deriving DecidableEq, Repr

/-- `Task.to_dict`: every field, deadline and created_at as textual
timestamps, absent deadline as null. -/
def to_dict (t : Task) : TaskDict :=
  { id := some t.id, title := some t.title, description := some t.description,
    priority := some t.priority, deadline := t.deadline.map DateText.good,
    created_at := some (isofmt t.created_at), completed := some t.completed,
    progress := some t.progress, dependencies := some t.dependencies,
    tags := some t.tags, estimated_minutes := t.estimated_minutes,
    auto_assigned := some t.auto_assigned, reminded := some t.reminded }

/-- `Task.from_dict`: parse the textual timestamps (raising on failure),
apply creation defaults for missing fields (`now` for `created_at`,
`freshId` for the uuid default). -/
def from_dict (now : Int) (freshId : String) (d : TaskDict) :
    Except Err Task :=
  match (match d.deadline with
         | none => Except.ok (none : Option Int)
         | some dt =>
           match parseDate dt with
           | some ts => Except.ok (some ts)
           | none => Except.error (Err.parseError dt)) with
  | .error e => .error e
  | .ok dl =>
    match (match d.created_at with
           | none => Except.ok now
           | some dt =>
             match parseDate dt with
             | some ts => Except.ok ts
             | none => Except.error (Err.parseError dt)) with
    | .error e => .error e
    | .ok ca =>
      .ok { priority := d.priority.getD 5, deadline := dl,
            id := d.id.getD freshId,
            title := d.title.getD "", description := d.description.getD "",
            created_at := ca, completed := d.completed.getD false,
            progress := d.progress.getD 0,
            dependencies := d.dependencies.getD [], tags := d.tags.getD [],
            estimated_minutes := d.estimated_minutes,
            auto_assigned := d.auto_assigned.getD false,
            reminded := d.reminded.getD false }

/-- `TaskManager.export_json`: the `tasks` sequence of the snapshot, in
store order (the JSON string framing round-trips these records exactly and
is elided). -/
def export_json (s : TaskManager) : List TaskDict := s.tasks.map to_dict

/-- The import loop of `TaskManager.import_json`: the store was already
cleared; insert records until one fails to convert, in which case the
partial store is kept and the exception propagates. -/
def importLoop (now : Int) :
    List TaskDict → List String → List Task → List Task × Option Err
  | [], _, acc => (acc, none)
  | d :: ds, fids, acc =>
    match from_dict now (fids.headD "") d with
    | .ok t => importLoop now ds fids.tail (dictInsert t acc)
    | .error e => (acc, some e)

/-- `TaskManager.import_json`. The payload is the result of `json.loads`
plus the `"tasks"` lookup: `none` models an undecodable payload (error
before any mutation); a decoded record list first clears the store, then
converts record by record, and only rebuilds the heap on full success. -/
def import_json (now : Int) (fids : List String)
    (payload : Option (List TaskDict)) (s : TaskManager) :
    TaskManager × Option Err :=
  match payload with
  | none => (s, some .formatError)
  | some ds =>
    match importLoop now ds fids [] with
    | (tasks1, none) => ({ tasks := tasks1, heap := rebuildHeap tasks1 }, none)
    | (tasks1, some e) => ({ tasks := tasks1, heap := s.heap }, some e)

/-- The progress invariant of the spec: `0 <= progress <= 100` and
`progress = 100` implies `completed`. -/
def progressInv (t : Task) : Prop :=
  0 ≤ t.progress ∧ t.progress ≤ 100 ∧ (t.progress = 100 → t.completed = true)

instance instDecProgressInv (t : Task) : Decidable (progressInv t) := by
  unfold progressInv
  infer_instance

/-- The heap-coverage invariant: every non-completed task of the store has a
heap entry carrying its current ordering key. -/
def heapInv (s : TaskManager) : Prop :=
  ∀ t ∈ s.tasks, t.completed = false → (sortIndex t, t.id) ∈ s.heap

instance instDecHeapInv (s : TaskManager) : Decidable (heapInv s) := by
  unfold heapInv
  infer_instance

/- Helper lemmas shared by the claim theorems. -/

theorem mem_heapInsert {a e : Entry} {l : List Entry} :
    a ∈ heapInsert e l ↔ a = e ∨ a ∈ l := by
  induction l with
  | nil => simp [heapInsert]
  | cons f fs ih =>
    simp only [heapInsert]
    split <;> simp only [List.mem_cons, ih] <;> tauto

theorem mem_foldl_pushHeap {l : List Task} {acc : List Entry} {e : Entry}
    (h : e ∈ acc) :
    e ∈ l.foldl (fun hp t => if t.completed then hp else pushHeap t hp) acc := by
  induction l generalizing acc with
  | nil => simpa using h
  | cons t ts ih =>
    simp only [List.foldl_cons]
    apply ih
    split
    · exact h
    · exact mem_heapInsert.mpr (Or.inr h)

theorem mem_rebuild_of_mem {l : List Task} {t : Task} (ht : t ∈ l)
    (hc : t.completed = false) (acc : List Entry) :
    (sortIndex t, t.id) ∈
      l.foldl (fun hp u => if u.completed then hp else pushHeap u hp) acc := by
  induction l generalizing acc with
  | nil => cases ht
  | cons u us ih =>
    simp only [List.foldl_cons]
    rcases List.mem_cons.mp ht with rfl | hmem
    · rw [hc]
      simp only [Bool.false_eq_true, if_false]
      exact mem_foldl_pushHeap (mem_heapInsert.mpr (Or.inl rfl))
    · exact ih hmem _

theorem heapInv_rebuild (tasks : List Task) :
    heapInv { tasks := tasks, heap := rebuildHeap tasks } := by
  intro t ht hc
  exact mem_rebuild_of_mem ht hc []

theorem mem_dictInsert {u t : Task} {l : List Task} (h : u ∈ dictInsert t l) :
    u = t ∨ u ∈ l := by
  induction l with
  | nil => simpa [dictInsert] using h
  | cons v vs ih =>
    simp only [dictInsert] at h
    split at h
    · rcases List.mem_cons.mp h with rfl | hm
      · exact Or.inl rfl
      · exact Or.inr (List.mem_cons_of_mem _ hm)
    · rcases List.mem_cons.mp h with rfl | hm
      · exact Or.inr (List.mem_cons_self _ _)
      · rcases ih hm with h1 | h1
        · exact Or.inl h1
        · exact Or.inr (List.mem_cons_of_mem _ h1)

theorem mem_dictModify {u : Task} {tid : String} {f : Task → Task}
    {l : List Task} (h : u ∈ dictModify tid f l) :
    u ∈ l ∨ ∃ v ∈ l, u = f v := by
  induction l with
  | nil => simpa [dictModify] using h
  | cons v vs ih =>
    simp only [dictModify] at h
    split at h
    · rcases List.mem_cons.mp h with rfl | hm
      · exact Or.inr ⟨v, List.mem_cons_self _ _, rfl⟩
      · exact Or.inl (List.mem_cons_of_mem _ hm)
    · rcases List.mem_cons.mp h with rfl | hm
      · exact Or.inl (List.mem_cons_self _ _)
      · rcases ih hm with h1 | ⟨w, hw, h2⟩
        · exact Or.inl (List.mem_cons_of_mem _ h1)
        · exact Or.inr ⟨w, List.mem_cons_of_mem _ hw, h2⟩

theorem mem_dictModify_dictInsert {u t : Task} {f : Task → Task}
    {l : List Task} (h : u ∈ dictModify t.id f (dictInsert t l)) :
    u = f t ∨ u ∈ l := by
  induction l with
  | nil =>
    simp only [dictInsert, dictModify, beq_self_eq_true, if_true] at h
    rcases List.mem_cons.mp h with rfl | hm
    · exact Or.inl rfl
    · cases hm
  | cons v vs ih =>
    simp only [dictInsert] at h
    by_cases hv : (v.id == t.id) = true
    · rw [if_pos hv] at h
      simp only [dictModify, beq_self_eq_true, if_true] at h
      rcases List.mem_cons.mp h with rfl | hm
      · exact Or.inl rfl
      · exact Or.inr (List.mem_cons_of_mem _ hm)
    · rw [if_neg hv] at h
      simp only [dictModify] at h
      rw [if_neg hv] at h
      rcases List.mem_cons.mp h with rfl | hm
      · exact Or.inr (List.mem_cons_self _ _)
      · rcases ih hm with h1 | h1
        · exact Or.inl h1
        · exact Or.inr (List.mem_cons_of_mem _ h1)

theorem getTask_some_id {l : List Task} {tid : String} {t : Task}
    (h : getTask l tid = some t) : t.id = tid := by
  have h2 : List.find? (fun u => u.id == tid) l = some t := h
  have h3 := List.find?_some h2
  exact eq_of_beq h3

theorem getTask_self_of_getTask {l : List Task} {tid : String} {t : Task}
    (h : getTask l tid = some t) : getTask l t.id = some t := by
  rw [getTask_some_id h]
  exact h

theorem getTask_dictModify_self {l : List Task} {tid : String} {t : Task}
    {f : Task → Task} (h : getTask l tid = some t) (hid : (f t).id = t.id) :
    getTask (dictModify tid f l) tid = some (f t) := by
  induction l with
  | nil => simp [getTask] at h
  | cons v vs ih =>
    by_cases hv : (v.id == tid) = true
    · have hvt : v = t := by
        have h2 : List.find? (fun u => u.id == tid) (v :: vs) = some t := h
        simp only [List.find?, hv] at h2
        exact Option.some.inj h2
      subst hvt
      show List.find? (fun u => u.id == tid) (dictModify tid f (v :: vs)) = _
      simp only [dictModify, if_pos hv, List.find?]
      have hfv : ((f v).id == tid) = true := by
        rw [hid]
        exact hv
      simp [hfv]
    · have hv2 : (v.id == tid) = false := by
        simpa using hv
      have h2 : List.find? (fun u => u.id == tid) (v :: vs) = some t := h
      simp only [List.find?, hv2] at h2
      show List.find? (fun u => u.id == tid) (dictModify tid f (v :: vs)) = _
      simp only [dictModify, if_neg hv, List.find?, hv2]
      exact ih h2

theorem from_dict_to_dict (now : Int) (fid : String) (t : Task) :
    from_dict now fid (to_dict t) = .ok t := by
  cases t with
  | mk p dl tid ti de ca co pr deps tg est aa rem =>
    cases dl <;> simp [from_dict, to_dict, parseDate, isofmt]

theorem dictInsert_eq_append {t : Task} {l : List Task}
    (h : ∀ u ∈ l, (u.id == t.id) = false) : dictInsert t l = l ++ [t] := by
  induction l with
  | nil => rfl
  | cons v vs ih =>
    simp only [dictInsert]
    rw [if_neg (by simp [h v (List.mem_cons_self _ _)]),
      ih (fun u hu => h u (List.mem_cons_of_mem _ hu))]
    rfl

theorem importLoop_export (now : Int) (l : List Task) :
    ∀ (fids : List String) (acc : List Task),
      (l.map (fun t => t.id)).Nodup →
      (∀ u ∈ acc, ∀ v ∈ l, (u.id == v.id) = false) →
      importLoop now (l.map to_dict) fids acc = (acc ++ l, none) := by
  induction l with
  | nil =>
    intro fids acc _ _
    simp [importLoop]
  | cons t ts ih =>
    intro fids acc hnd hacc
    simp only [List.map_cons, importLoop, from_dict_to_dict]
    rw [dictInsert_eq_append (fun u hu => hacc u hu t (List.mem_cons_self _ _))]
    have hnd1 : t.id ∉ ts.map (fun t => t.id) ∧ (ts.map (fun t => t.id)).Nodup := by
      rw [List.map_cons] at hnd
      exact List.nodup_cons.mp hnd
    have hnd2 : (ts.map (fun t => t.id)).Nodup := hnd1.2
    have hhead : t.id ∉ ts.map (fun t => t.id) := hnd1.1
    have hacc2 : ∀ u ∈ acc ++ [t], ∀ v ∈ ts, (u.id == v.id) = false := by
      intro u hu v hv
      rcases List.mem_append.mp hu with h1 | h1
      · exact hacc u h1 v (List.mem_cons_of_mem _ hv)
      · have hut : u = t := by simpa using h1
        subst hut
        have : u.id ≠ v.id := by
          intro hcontr
          exact hhead (by
            rw [hcontr]
            exact List.mem_map.mpr ⟨v, hv, rfl⟩)
        simpa using this
    rw [ih fids.tail (acc ++ [t]) hnd2 hacc2]
    simp

/- Concrete fixtures used by witnesses and counterexamples. -/

/-- A completed task, a task depending on it, and a task with an unresolved
dependency. -/
def c3b : Task := { id := "b", completed := true, progress := 100 }

/-- A task whose single dependency is the completed task `c3b`. -/
def c3c : Task := { id := "c", dependencies := ["b"] }

/-- A task whose single dependency id resolves to nothing. -/
def c3d : Task := { id := "d", dependencies := ["zz"] }

/-- Store holding the three completion fixtures. -/
def c3s : TaskManager :=
  { tasks := [c3b, c3c, c3d], heap := rebuildHeap [c3b, c3c, c3d] }

/-- A live task for the peek/pop fixtures. -/
def c4t : Task := { id := "x" }

/-- Store list for the peek/pop fixtures. -/
def c4tasks : List Task := [c4t]

/-- A heap with one stale entry (id no longer in the store) ahead of the
valid entry. -/
def c4heap : List Entry := [((1, none), "gone"), ((5, none), "x")]

/- Claim theorems. -/

/-- Claim C3: completeTask fails with NotFound when the id is absent; when
the task exists and some dependency does not resolve to an existing
completed task it fails with a DependencyError carrying exactly those unmet
ids and mutates nothing; with no unmet dependency it sets completed = true
and progress = 100. -/
theorem c3_theorem (s : TaskManager) (tid : String) :
    (getTask s.tasks tid = none → complete_task tid s = (s, some .notFound)) ∧
    (∀ t, getTask s.tasks tid = some t →
      (∀ d, d ∈ unmetDeps s t ↔
        d ∈ t.dependencies ∧
          (getTask s.tasks d).any (fun td => td.completed) = false) ∧
      (unmetDeps s t ≠ [] →
        complete_task tid s = (s, some (.depError (unmetDeps s t)))) ∧
      (unmetDeps s t = [] →
        (complete_task tid s).2 = none ∧
        getTask (complete_task tid s).1.tasks tid =
          some { t with completed := true, progress := 100 })) := by
  constructor
  · intro h
    simp [complete_task, h]
  · intro t ht
    refine ⟨?_, ?_, ?_⟩
    · intro d
      simp [unmetDeps, List.mem_filter]
    · intro hne
      simp only [complete_task, ht]
      cases hu : unmetDeps s t with
      | nil => exact absurd hu hne
      | cons d ds => rfl
    · intro he
      simp only [complete_task, ht, he]
      exact ⟨trivial, getTask_dictModify_self ht rfl⟩

/-- Witness for C3: at the concrete store, a missing id gives NotFound, an
unresolved dependency gives the DependencyError with exactly that id, and a
met dependency lets completion succeed. -/
theorem c3_witness :
    complete_task "nope" c3s = (c3s, some .notFound) ∧
    complete_task "d" c3s = (c3s, some (.depError (unmetDeps c3s c3d))) ∧
    (complete_task "c" c3s).2 = none := by
  refine ⟨?_, ?_, ?_⟩
  · exact (c3_theorem c3s "nope").1 (by decide)
  · exact (((c3_theorem c3s "d").2 c3d (by decide)).2.1) (by decide)
  · exact ((((c3_theorem c3s "c").2 c3c (by decide)).2.2) (by decide)).1

/-- Claim C4: peekNext and popNext never return a completed or deleted
task; each returns none exactly when no heap entry references a live
non-completed task; peekNext keeps the valid entry at the front and
repeating it changes nothing. -/
theorem c4_theorem (tasks : List Task) (heap : List Entry) :
    (∀ t, (peek_next tasks heap).1 = some t →
      t.completed = false ∧ getTask tasks t.id = some t) ∧
    (∀ t, (pop_next tasks heap).1 = some t →
      t.completed = false ∧ getTask tasks t.id = some t) ∧
    ((peek_next tasks heap).1 = none ↔
      ∀ e ∈ heap, (getTask tasks e.2).any (fun t => !t.completed) = false) ∧
    ((pop_next tasks heap).1 = none ↔
      ∀ e ∈ heap, (getTask tasks e.2).any (fun t => !t.completed) = false) ∧
    (∀ t, (peek_next tasks heap).1 = some t →
      (peek_next tasks heap).2.head?.map (fun e => e.2) = some t.id) ∧
    (peek_next tasks (peek_next tasks heap).2 = peek_next tasks heap) := by
  induction heap with
  | nil => simp [peek_next, pop_next]
  | cons e rest ih =>
    obtain ⟨ih1, ih2, ih3, ih4, ih5, ih6⟩ := ih
    cases hg : getTask tasks e.2 with
    | none =>
      simp only [peek_next, pop_next, hg]
      refine ⟨ih1, ih2, ?_, ?_, ih5, ih6⟩
      · rw [ih3]
        constructor
        · intro h e1 he1
          rcases List.mem_cons.mp he1 with rfl | hm
          · rw [hg]
            rfl
          · exact h e1 hm
        · intro h e1 he1
          exact h e1 (List.mem_cons_of_mem _ he1)
      · rw [ih4]
        constructor
        · intro h e1 he1
          rcases List.mem_cons.mp he1 with rfl | hm
          · rw [hg]
            rfl
          · exact h e1 hm
        · intro h e1 he1
          exact h e1 (List.mem_cons_of_mem _ he1)
    | some t =>
      cases hc : t.completed with
      | true =>
        simp only [peek_next, pop_next, hg, hc, if_true]
        refine ⟨ih1, ih2, ?_, ?_, ih5, ih6⟩
        · rw [ih3]
          constructor
          · intro h e1 he1
            rcases List.mem_cons.mp he1 with rfl | hm
            · rw [hg]
              simp [hc]
            · exact h e1 hm
          · intro h e1 he1
            exact h e1 (List.mem_cons_of_mem _ he1)
        · rw [ih4]
          constructor
          · intro h e1 he1
            rcases List.mem_cons.mp he1 with rfl | hm
            · rw [hg]
              simp [hc]
            · exact h e1 hm
          · intro h e1 he1
            exact h e1 (List.mem_cons_of_mem _ he1)
      | false =>
        simp only [peek_next, pop_next, hg, hc, Bool.false_eq_true, if_false]
        refine ⟨?_, ?_, ?_, ?_, ?_, ?_⟩
        · intro t1 ht1
          obtain rfl := Option.some.inj ht1
          exact ⟨hc, getTask_self_of_getTask hg⟩
        · intro t1 ht1
          obtain rfl := Option.some.inj ht1
          exact ⟨hc, getTask_self_of_getTask hg⟩
        · constructor
          · intro h
            exact absurd h (by simp)
          · intro hall
            exfalso
            have h2 := hall e (List.mem_cons_self _ _)
            rw [hg] at h2
            simp [hc] at h2
        · constructor
          · intro h
            exact absurd h (by simp)
          · intro hall
            exfalso
            have h2 := hall e (List.mem_cons_self _ _)
            rw [hg] at h2
            simp [hc] at h2
        · intro t1 ht1
          obtain rfl := Option.some.inj ht1
          simp [getTask_some_id hg]
        · simp [peek_next, hg, hc]

/-- Witness for C4 at a concrete store with a stale heap entry in front. -/
theorem c4_witness :
    (c4t.completed = false ∧ getTask c4tasks c4t.id = some c4t) ∧
    peek_next c4tasks (peek_next c4tasks c4heap).2 = peek_next c4tasks c4heap ∧
    (peek_next c4tasks []).1 = none := by
  refine ⟨(c4_theorem c4tasks c4heap).1 c4t (by decide),
    (c4_theorem c4tasks c4heap).2.2.2.2.2, ?_⟩
  exact ((c4_theorem c4tasks []).2.2.1).mpr (by intro e he; cases he)

/-- Claim C8: text containing "urgent" (case-insensitively) always yields
priority 1 from the heuristic, whatever other keywords appear; the
deadline-proximity step only tightens priority; a deadline 6 hours from now
yields priority at most 1 with or without keywords. -/
theorem c8_theorem (now : Int) (title description : String)
    (dl : Option Int) :
    (containsSub "urgent".data (lowerChars (title ++ " " ++ description)) =
        true →
      (auto_assign now title description dl).1 = 1) ∧
    ((auto_assign now title description dl).1 ≤
      (auto_assign now title description none).1) ∧
    (auto_assign now title description (some (now + 6 * 3600))).1 ≤ 1 := by
  have hks : ∀ text, containsSub "urgent".data text = true →
      (keywordStage text).1 = 1 := by
    intro text h
    simp [keywordStage, h]
  have hds_le : ∀ s1 d, (deadlineStage now s1 d).1 ≤ s1.1 := by
    intro s1 d
    unfold deadlineStage
    split_ifs <;> first | exact min_le_left _ _ | exact le_refl _
  refine ⟨?_, ?_, ?_⟩
  · intro h
    cases dl with
    | none =>
      show (keywordStage (lowerChars (title ++ " " ++ description))).1 = 1
      exact hks _ h
    | some d =>
      show (deadlineStage now (keywordStage _) d).1 = 1
      have h1 := hks _ h
      unfold deadlineStage
      rw [h1]
      split_ifs <;> first | rfl | exact h1
  · cases dl with
    | none => exact le_refl _
    | some d =>
      show (deadlineStage now (keywordStage _) d).1 ≤ (keywordStage _).1
      exact hds_le _ _
  · show (deadlineStage now (keywordStage _) (now + 6 * 3600)).1 ≤ 1
    unfold deadlineStage
    have hc : now + 6 * 3600 - now ≤ 12 * 3600 := by omega
    rw [if_pos hc]
    exact min_le_right _ _

/-- Witness for C8 at concrete inputs: "URGENT" beats the "low"/"whenever"
keywords, and a bare 6-hour deadline forces priority at most 1. -/
theorem c8_witness :
    (auto_assign 0 "URGENT and low" "whenever" none).1 = 1 ∧
    (auto_assign 0 "meeting" "" (some (0 + 6 * 3600))).1 ≤ 1 :=
  ⟨(c8_theorem 0 "URGENT and low" "whenever" none).1 (by decide),
    (c8_theorem 0 "meeting" "" none).2.2⟩

/-- Claim C9: in the natural-language stub, "tomorrow" yields now + 1 day,
"today" yields the current instant, and when both appear "tomorrow" wins
(it is checked first in the source). -/
theorem c9_theorem (now : Int) (s : String) :
    (containsSub "tomorrow".data (lowerChars s) = true →
      (ai_parse_task now s).deadline = some (isofmt (now + 86400))) ∧
    (containsSub "today".data (lowerChars s) = true →
      containsSub "tomorrow".data (lowerChars s) = false →
      (ai_parse_task now s).deadline = some (isofmt now)) ∧
    (containsSub "tomorrow".data (lowerChars s) = true →
      containsSub "today".data (lowerChars s) = true →
      (ai_parse_task now s).deadline = some (isofmt (now + 86400))) := by
  refine ⟨fun h1 => ?_, fun h1 h2 => ?_, fun h1 _ => ?_⟩
  · simp [ai_parse_task, h1]
  · simp [ai_parse_task, h1, h2]
  · simp [ai_parse_task, h1]

/-- Witness for C9 on concrete phrases, including one containing both
"today" and "tomorrow". -/
theorem c9_witness :
    (ai_parse_task 0 "due tomorrow").deadline = some (isofmt (0 + 86400)) ∧
    (ai_parse_task 5 "finish today").deadline = some (isofmt 5) ∧
    (ai_parse_task 0 "today or tomorrow").deadline = some (isofmt (0 + 86400)) :=
  ⟨(c9_theorem 0 "due tomorrow").1 (by decide),
    (c9_theorem 5 "finish today").2.1 (by decide) (by decide),
    (c9_theorem 0 "today or tomorrow").2.2 (by decide) (by decide)⟩

/-- Claim C6: export followed by import reproduces the task set exactly,
id-for-id and field-for-field, into any prior store state. -/
theorem c6_theorem (s s2 : TaskManager) (now : Int) (fids : List String)
    (hnd : (s.tasks.map (fun t => t.id)).Nodup) :
    import_json now fids (some (export_json s)) s2 =
      ({ tasks := s.tasks, heap := rebuildHeap s.tasks }, none) := by
  have h := importLoop_export now s.tasks fids [] hnd
    (by intro u hu; cases hu)
  rw [List.nil_append] at h
  simp only [import_json, export_json, h]

/-- A task exercising every serializable field, including a present
deadline, explicit effort and flags. -/
def c6a : Task :=
  { id := "a1", title := "alpha", description := "first", priority := 2,
    deadline := some 7200, created_at := 100, progress := 40,
    dependencies := ["a2"], tags := ["x"], estimated_minutes := some 30,
    auto_assigned := true, reminded := true }

/-- A completed task with no deadline and default effort. -/
def c6b : Task :=
  { id := "a2", title := "beta", completed := true, progress := 100 }

/-- A populated store for the round-trip witness. -/
def c6s : TaskManager := { tasks := [c6a, c6b], heap := rebuildHeap [c6a, c6b] }

/-- Witness for C6: the round trip on a populated store (absent-deadline and
default-effort cases included) and on an empty store. -/
theorem c6_witness :
    import_json 0 [] (some (export_json c6s)) ({} : TaskManager) =
      ({ tasks := c6s.tasks, heap := rebuildHeap c6s.tasks }, none) ∧
    import_json 0 [] (some (export_json ({} : TaskManager))) c6s =
      ({ tasks := ({} : TaskManager).tasks,
         heap := rebuildHeap ({} : TaskManager).tasks }, none) :=
  ⟨c6_theorem c6s ({} : TaskManager) 0 [] (by decide),
    c6_theorem ({} : TaskManager) c6s 0 [] (by decide)⟩

/-- The urgency term of the code agrees with the amended spec reading
pointwise: `-1000` exactly when the deadline is at or before now. -/
theorem codeScore_eq_amended (now : Int) (t : Task) :
    codeScore now t = specScoreAmended now t := by
  unfold codeScore specScoreAmended codeUrgency specUrgencyAmended
  cases hd : t.deadline with
  | none => rfl
  | some d =>
    simp only [deadlineScore, specUrgencyAmendedAux]
    by_cases hle : d - now ≤ 0
    · rw [if_pos hle, if_pos (by omega : d ≤ now)]
    · rw [if_neg hle, if_neg (by omega : ¬d ≤ now)]

/-- A priority-5 task whose deadline is exactly the current instant: not
strictly past, yet the code gives it the `-1000` urgency bonus. -/
def c7p5 : Task := { id := "p5", priority := 5, deadline := some 0 }

/-- A priority-1 task with no deadline. -/
def c7p1 : Task := { id := "p1", priority := 1 }

/-- Store for the C7 boundary counterexample. -/
def c7s : TaskManager :=
  { tasks := [c7p5, c7p1], heap := rebuildHeap [c7p5, c7p1] }

/-- Counterexample to C7 as stated: with a deadline exactly equal to `now`
(not strictly in the past), the code still applies the `-1000` bonus
(`delta <= 0`), so the computed order differs from the claimed
strictly-past scoring. -/
theorem c7_counterexample :
    ai_schedule 0 c7s = ["p5", "p1"] ∧
    specScheduleStrict 0 c7s = ["p1", "p5"] ∧
    ai_schedule 0 c7s ≠ specScheduleStrict 0 c7s := by
  refine ⟨?_, ?_, ?_⟩
  · norm_num [ai_schedule, scheduleBy, sortByScore, insertByScore, codeScore,
      codeUrgency, deadlineScore, c7s, c7p5, c7p1]
  · norm_num [specScheduleStrict, scheduleBy, sortByScore, insertByScore,
      specScoreStrict, specUrgencyStrict, specUrgencyStrictAux, c7s, c7p5,
      c7p1]
  · intro h
    rw [show ai_schedule 0 c7s = ["p5", "p1"] by
        norm_num [ai_schedule, scheduleBy, sortByScore, insertByScore,
          codeScore, codeUrgency, deadlineScore, c7s, c7p5, c7p1],
      show specScheduleStrict 0 c7s = ["p1", "p5"] by
        norm_num [specScheduleStrict, scheduleBy, sortByScore, insertByScore,
          specScoreStrict, specUrgencyStrict, specUrgencyStrictAux, c7s, c7p5,
          c7p1]] at h
    exact absurd h (by decide)

/-- Priority-1 task with no deadline, for the overdue example. -/
def c7a2 : Task := { id := "a2", priority := 1 }

/-- Priority-5 task one hour overdue, for the overdue example. -/
def c7b : Task := { id := "b", priority := 5, deadline := some (-3600) }

/-- Store for the C7 overdue example. -/
def c7sb : TaskManager :=
  { tasks := [c7a2, c7b], heap := rebuildHeap [c7a2, c7b] }

/-- Claim C7 amended: globalSchedule returns the ids of exactly the
non-completed tasks sorted ascending (stably) by
`priority + urgencyHours/24`, with the `-1000` bonus applying whenever the
deadline is at or before now (delta <= 0), not only strictly past;
consequently a priority-5 task one hour overdue ranks before a priority-1
task with no deadline. -/
theorem c7_theorem :
    (∀ (now : Int) (s : TaskManager),
      ai_schedule now s = specScheduleAmended now s) ∧
    ai_schedule 0 c7sb = ["b", "a2"] := by
  constructor
  · intro now s
    unfold ai_schedule specScheduleAmended
    rw [funext (codeScore_eq_amended now)]
  · norm_num [ai_schedule, scheduleBy, sortByScore, insertByScore, codeScore,
      codeUrgency, deadlineScore, c7sb, c7a2, c7b]

/-- A non-completed task whose single dependency id "x" resolves to no
task at all. -/
def c1a : Task := { id := "a", dependencies := ["x"] }

/-- Store for the C1 counterexample. -/
def c1s : TaskManager := { tasks := [c1a], heap := rebuildHeap [c1a] }

/-- A completed task used as a satisfied dependency. -/
def c1b : Task := { id := "b", completed := true, progress := 100 }

/-- A task whose single dependency is the completed `c1b`. -/
def c1c : Task := { id := "c", dependencies := ["b"] }

/-- Store for the C1 witness. -/
def c1ws : TaskManager := { tasks := [c1b, c1c], heap := rebuildHeap [c1b, c1c] }

/-- Counterexample to C1 as stated: `set_progress(id, 100)` and
`update_task(completed=True)` set `completed = true` even though the task's
dependency "x" resolves to no existing task — the transition is not blocked. -/
theorem c1_counterexample :
    (getTask c1s.tasks "a").any (fun t => t.completed) = false ∧
    getTask c1s.tasks "x" = none ∧
    (set_progress "a" 100 c1s).2 = none ∧
    (getTask (set_progress "a" 100 c1s).1.tasks "a").any
      (fun t => t.completed) = true ∧
    (update_task "a" [.completed true] c1s).2 = none ∧
    (getTask (update_task "a" [.completed true] c1s).1.tasks "a").any
      (fun t => t.completed) = true := by
  decide

/-- Claim C1 amended: only completeTask enforces the dependency gate — it
sets completed only when every dependency id resolves to an existing
completed task; setProgress reaching 100 and updateTask applying a
completed field set completed = true without any dependency check. -/
theorem c1_theorem :
    (∀ (s : TaskManager) (tid : String) (t : Task),
      (complete_task tid s).2 = none → getTask s.tasks tid = some t →
      ∀ d ∈ t.dependencies,
        (getTask s.tasks d).any (fun td => td.completed) = true) ∧
    (∀ (s : TaskManager) (tid : String) (t : Task),
      getTask s.tasks tid = some t →
      (set_progress tid 100 s).2 = none ∧
      getTask (set_progress tid 100 s).1.tasks tid =
        some { t with progress := 100, completed := true }) ∧
    (∀ (s : TaskManager) (tid : String) (t : Task),
      getTask s.tasks tid = some t →
      (update_task tid [.completed true] s).2 = none ∧
      getTask (update_task tid [.completed true] s).1.tasks tid =
        some { t with completed := true }) := by
  refine ⟨?_, ?_, ?_⟩
  · intro s tid t h2 ht d hd
    simp only [complete_task, ht] at h2
    cases hu : unmetDeps s t with
    | nil =>
      unfold unmetDeps at hu
      have h3 := List.filter_eq_nil_iff.mp hu d hd
      simpa using h3
    | cons a as =>
      rw [hu] at h2
      exact absurd h2 (by simp)
  · intro s tid t ht
    refine ⟨by simp [set_progress, ht], ?_⟩
    simp only [set_progress, ht]
    exact getTask_dictModify_self ht rfl
  · intro s tid t ht
    refine ⟨by simp [update_task, ht, applyFields, applyField], ?_⟩
    simp only [update_task, ht, applyFields, applyField]
    exact getTask_dictModify_self ht rfl

/-- Witness for C1: a successful completion had its dependency completed;
the ungated setters succeed on a task with an unresolved dependency. -/
theorem c1_witness :
    (getTask c1ws.tasks "b").any (fun td => td.completed) = true ∧
    (set_progress "a" 100 c1s).2 = none ∧
    (update_task "a" [.completed true] c1s).2 = none :=
  ⟨c1_theorem.1 c1ws "c" c1c (by decide) (by decide) "b" (by decide),
    (c1_theorem.2.1 c1s "a" c1a (by decide)).1,
    (c1_theorem.2.2 c1s "a" c1a (by decide)).1⟩

/-- A plain fresh task for the C2 fixtures. -/
def c2a : Task := { id := "a" }

/-- Store for the C2 counterexample and witness. -/
def c2s : TaskManager := { tasks := [c2a], heap := rebuildHeap [c2a] }

/-- Counterexample to C2 as stated: updateTask applies `progress` verbatim,
so progress can exceed 100, and progress = 100 via updateTask does not set
completed. -/
theorem c2_counterexample :
    (update_task "a" [.progress 150] c2s).2 = none ∧
    (getTask (update_task "a" [.progress 150] c2s).1.tasks "a").any
      (fun t => decide (100 < t.progress)) = true ∧
    (update_task "a" [.progress 100] c2s).2 = none ∧
    (getTask (update_task "a" [.progress 100] c2s).1.tasks "a").any
      (fun t => t.progress == 100 && !t.completed) = true := by
  decide

/-- New tasks and the dependency-append step keep the progress invariant. -/
theorem progressInv_insertNewTask {t0 : Task} {deps : Option (List String)}
    {s : TaskManager} (hs : ∀ t ∈ s.tasks, progressInv t)
    (h0 : progressInv t0) :
    ∀ t ∈ (insertNewTask t0 deps s).tasks, progressInv t := by
  intro t ht
  simp only [insertNewTask] at ht
  cases deps with
  | none =>
    rcases mem_dictInsert ht with rfl | hm
    · exact h0
    · exact hs t hm
  | some ds =>
    rcases mem_dictModify_dictInsert ht with rfl | hm
    · exact h0
    · exact hs t hm

/-- Claim C2 amended: createTask and setProgress preserve the progress
invariant (`0 <= progress <= 100` and `progress = 100` implies completed)
for every task in the store; updateTask applies progress verbatim and is
exempt. -/
theorem c2_theorem :
    (∀ (tid : String) (p : Int) (s : TaskManager),
      (∀ t ∈ s.tasks, progressInv t) →
      ∀ t ∈ (set_progress tid p s).1.tasks, progressInv t) ∧
    (∀ (now : Int) (newId title description : String)
        (dlIso : Option DateText) (pr : Option Int)
        (deps : Option (List String)) (nlp : Bool)
        (tg : Option (List String)) (mins : Option Int) (s : TaskManager),
      (∀ t ∈ s.tasks, progressInv t) →
      ∀ t ∈ (add_task now newId title description dlIso pr deps nlp tg mins
          s).1.tasks, progressInv t) := by
  constructor
  · intro tid p s hs t ht
    rcases hgt : getTask s.tasks tid with _ | t0
    · simp only [set_progress, hgt] at ht
      exact hs t ht
    · simp only [set_progress, hgt] at ht
      rcases mem_dictModify ht with hm | ⟨v, hv, rfl⟩
      · exact hs t hm
      · refine ⟨le_max_left 0 _, max_le (by norm_num) (min_le_left _ _), ?_⟩
        intro h100
        have h100b : 0 ⊔ 100 ⊓ p = 100 := by simpa using h100
        simp [h100b]
  · intro now newId title description dlIso pr deps nlp tg mins s hs t ht
    unfold add_task at ht
    split at ht
    split at ht
    · exact hs t ht
    · split at ht
      exact progressInv_insertNewTask hs
        ⟨by norm_num, by norm_num, by intro h; exact absurd h (by norm_num)⟩
        t ht

/-- Witness for C2: the clamped setProgress task satisfies the invariant,
and a pre-existing task still satisfies it after a create. -/
theorem c2_witness :
    progressInv { c2a with progress := 100, completed := true } ∧
    progressInv c2a :=
  ⟨c2_theorem.1 "a" 150 c2s (by decide) _ (by decide),
    c2_theorem.2 0 "n" "T" "" none none none false none none c2s (by decide)
      c2a (by decide)⟩

/-- A task with a title the failing update will already have overwritten. -/
def c5a : Task := { id := "a", title := "Old" }

/-- Store for the C5 counterexample and amended-claim facts. -/
def c5s : TaskManager := { tasks := [c5a], heap := rebuildHeap [c5a] }

/-- An update list whose title change precedes an unparseable deadline. -/
def c5updates : List FieldUpdate :=
  [.title "New", .deadline (some (.bad "notadate"))]

/-- A serialized record whose deadline text does not parse. -/
def c5bad : TaskDict := { deadline := some (.bad "garbage") }

/-- Counterexample to C5 as stated: an updateTask whose deadline text is
unparseable raises the ParseError but leaves the earlier field applied —
the task's title is already "New", a partial mutation. -/
theorem c5_counterexample :
    (update_task "a" c5updates c5s).2 = some (.parseError (.bad "notadate")) ∧
    (getTask (update_task "a" c5updates c5s).1.tasks "a").map Task.title =
      some "New" := by
  decide

/-- Claim C5 amended: createTask with unparseable deadline text aborts with
the ParseError before any mutation, and importSnapshot on an undecodable
payload fails with FormatError leaving the store untouched; but updateTask
applies fields sequentially, so fields listed before a failing deadline
stay applied, and an import whose decoded records fail to convert has
already cleared (and possibly partially refilled) the store. -/
theorem c5_theorem :
    (∀ (now : Int) (newId title description : String) (dtext : DateText)
        (pr : Option Int) (deps : Option (List String)) (nlp : Bool)
        (tg : Option (List String)) (mins : Option Int) (s : TaskManager),
      parseDate dtext = none →
      add_task now newId title description (some dtext) pr deps nlp tg mins s
        = (s, some (.parseError dtext))) ∧
    (∀ (now : Int) (fids : List String) (s : TaskManager),
      import_json now fids none s = (s, some .formatError)) ∧
    ((update_task "a" c5updates c5s).2 = some (.parseError (.bad "notadate")) ∧
      (getTask (update_task "a" c5updates c5s).1.tasks "a").map Task.title =
        some "New") ∧
    ((import_json 0 [] (some [c5bad]) c5s).1.tasks = [] ∧
      (import_json 0 [] (some [c5bad]) c5s).2 =
        some (.parseError (.bad "garbage")) ∧
      c5s.tasks ≠ []) := by
  refine ⟨?_, ?_, by decide, by decide⟩
  · intro now newId title description dtext pr deps nlp tg mins s h
    unfold add_task
    cases nlp with
    | false => simp [h]
    | true =>
      cases hpd : (ai_parse_task now
          (if description == "" then title
           else title ++ " " ++ description)).deadline with
      | none => simp [hpd, h]
      | some d0 => simp [hpd, h]
  · intro now fids s
    rfl

/-- Witness for C5 at concrete inputs: a bad create aborts cleanly and a
none payload leaves the store alone. -/
theorem c5_witness :
    add_task 0 "n" "T" "D" (some (.bad "zz")) none none false none none c5s
      = (c5s, some (.parseError (.bad "zz"))) ∧
    import_json 0 [] none c5s = (c5s, some .formatError) :=
  ⟨c5_theorem.1 0 "n" "T" "D" (.bad "zz") none none false none none c5s
      (by decide),
    c5_theorem.2.1 0 [] c5s⟩

/-- A priority-5 task for the heap-coverage fixtures. -/
def c10a : Task := { id := "a", priority := 5 }

/-- Store with a coherent heap for the C10 fixtures. -/
def c10s : TaskManager := { tasks := [c10a], heap := rebuildHeap [c10a] }

/-- An update that changes the ordering key and then fails on the deadline. -/
def c10ups : List FieldUpdate := [.priority 1, .deadline (some (.bad "x"))]

/-- Counterexample to C10 as stated: an update_task call that mutates the
priority and then raises on its deadline text leaves the store changed but
the heap not rebuilt, so the non-completed task has no entry carrying its
current ordering key. -/
theorem c10_counterexample :
    heapInv c10s ∧
    (update_task "a" c10ups c10s).2 = some (.parseError (.bad "x")) ∧
    ¬heapInv (update_task "a" c10ups c10s).1 := by
  decide

/-- Inserting a fresh task keeps the heap-coverage invariant: the new task's
entry is pushed, the dependency-append step does not change the ordering
key, and old entries survive the push. -/
theorem heapInv_insertNewTask (t0 : Task) (deps : Option (List String))
    (s : TaskManager) (hs : heapInv s) : heapInv (insertNewTask t0 deps s) := by
  intro t ht hc
  simp only [insertNewTask] at ht ⊢
  cases deps with
  | none =>
    rcases mem_dictInsert ht with rfl | hm
    · exact mem_heapInsert.mpr (Or.inl rfl)
    · exact mem_heapInsert.mpr (Or.inr (hs t hm hc))
  | some ds =>
    rcases mem_dictModify_dictInsert ht with rfl | hm
    · exact mem_heapInsert.mpr (Or.inl rfl)
    · exact mem_heapInsert.mpr (Or.inr (hs t hm hc))

/-- Claim C10 amended: after every store-mutating operation that returns
normally (no exception), every non-completed task has a heap entry carrying
its current (priority, deadline-or-infinity) key — add_task needs the
invariant beforehand since it only pushes the new entry, all other
operations rebuild the heap. -/
theorem c10_theorem :
    (∀ (now : Int) (newId title description : String)
        (dlIso : Option DateText) (pr : Option Int)
        (deps : Option (List String)) (nlp : Bool)
        (tg : Option (List String)) (mins : Option Int) (s : TaskManager),
      heapInv s →
      heapInv (add_task now newId title description dlIso pr deps nlp tg mins
        s).1) ∧
    (∀ (tid : String) (ups : List FieldUpdate) (s : TaskManager),
      (update_task tid ups s).2 = none → heapInv (update_task tid ups s).1) ∧
    (∀ (tid : String) (s : TaskManager), heapInv (delete_task tid s).1) ∧
    (∀ (tid : String) (p : Int) (s : TaskManager),
      (set_progress tid p s).2 = none → heapInv (set_progress tid p s).1) ∧
    (∀ (tid : String) (s : TaskManager),
      (complete_task tid s).2 = none → heapInv (complete_task tid s).1) ∧
    (∀ (now : Int) (fids : List String) (payload : Option (List TaskDict))
        (s : TaskManager),
      (import_json now fids payload s).2 = none →
      heapInv (import_json now fids payload s).1) := by
  refine ⟨?_, ?_, ?_, ?_, ?_, ?_⟩
  · intro now newId title description dlIso pr deps nlp tg mins s hs
    unfold add_task
    split
    split
    · exact hs
    · split
      exact heapInv_insertNewTask _ _ _ hs
  · intro tid ups s h
    rcases hgt : getTask s.tasks tid with _ | t0
    · simp [update_task, hgt] at h
    · rcases haf : applyFields t0 ups with ⟨t1, e⟩
      cases e with
      | none =>
        simp only [update_task, hgt, haf]
        exact heapInv_rebuild _
      | some err => simp [update_task, hgt, haf] at h
  · intro tid s
    exact heapInv_rebuild _
  · intro tid p s h
    rcases hgt : getTask s.tasks tid with _ | t0
    · simp [set_progress, hgt] at h
    · simp only [set_progress, hgt]
      exact heapInv_rebuild _
  · intro tid s h
    rcases hgt : getTask s.tasks tid with _ | t0
    · simp [complete_task, hgt] at h
    · rcases hu : unmetDeps s t0 with _ | ⟨d, ds⟩
      · simp only [complete_task, hgt, hu]
        exact heapInv_rebuild _
      · simp [complete_task, hgt, hu] at h
  · intro now fids payload s h
    cases payload with
    | none => simp [import_json] at h
    | some ds =>
      rcases hil : importLoop now ds fids [] with ⟨tasks1, e⟩
      cases e with
      | none =>
        simp only [import_json, hil]
        exact heapInv_rebuild _
      | some err => simp [import_json, hil] at h

/-- Witness for C10: the invariant holds after a concrete setProgress and
after a concrete add_task on the coherent fixture store. -/
theorem c10_witness :
    heapInv (set_progress "a" 50 c10s).1 ∧
    heapInv (add_task 0 "b" "T" "" none (some 2) none false none none
      c10s).1 :=
  ⟨c10_theorem.2.2.2.1 "a" 50 c10s (by decide),
    c10_theorem.1 0 "b" "T" "" none (some 2) none false none none c10s
      (by decide)⟩

end Planner
